import Mathlib

/-!
Shallow embedding of `download.py` from `bop_dataset_downloader`.

The program state threaded through the embedded functions records the
filesystem (a path-to-content association list), the list of network
requests actually performed (in order), a trace of step invocations
(fetch / extract calls with their destination directories), and the
lines printed to standard output.  Python exceptions are modelled by an
`Option PyErr` result component: `none` means the function returned
normally, `some e` means the exception `e` escaped the function.
-/

namespace BopDL

/-- Contents of a file: raw bytes, or a zip container.  A zip entry is
`(name, data, intact)`; `intact = false` models a corrupt member for
which `zf.extract` raises `zipfile.error`. -/
inductive FileData where
  | raw (s : String)
  | zipData (entries : List (String × String × Bool))
deriving DecidableEq

abbrev ZEntry := String × String × Bool

/-- Filesystem: association list from absolute path to file content. -/
abbrev FS := List (String × FileData)

def fsGet (fs : FS) (p : String) : Option FileData :=
  match fs with
  | [] => none
  | e :: rest => if e.1 = p then some e.2 else fsGet rest p

def fsExists (fs : FS) (p : String) : Bool :=
  (fsGet fs p).isSome

def fsRemove (fs : FS) (p : String) : FS :=
  match fs with
  | [] => []
  | e :: rest => if e.1 = p then fsRemove rest p else e :: fsRemove rest p

def fsWrite (fs : FS) (p : String) (v : FileData) : FS :=
  (p, v) :: fsRemove fs p

/-- `os.path.join(a, b)` for the relative-second-component case used here. -/
def pjoin (a b : String) : String := a ++ "/" ++ b

/-- `str.split("/")` on the character list of the string. -/
def splitSlash : List Char → List (List Char)
  | [] => [[]]
  | ch :: rest =>
      let r := splitSlash rest
      if ch = '/' then [] :: r
      else match r with
        | [] => [[ch]]
        | seg :: segs => (ch :: seg) :: segs

/-- `url.split("/")[-1]` — the text after the last slash. -/
def lastSeg (url : String) : String :=
  String.mk ((splitSlash url.data).getLastD [])

/-- Outcome of one HTTP GET, as seen by `urllib.request.urlretrieve`:
either the full body arrives, or the response is an HTTP error status
(raises `HTTPError`, no destination file is created), or the connection
fails before any byte (raises `URLError`, no file), or the transfer
fails mid-body (the bytes received so far are already in the
destination file and `urlretrieve` raises a `URLError`). -/
inductive NetOutcome where
  | ok (data : FileData)
  | httpError
  | urlError
  | midFail (sofar : String)
deriving DecidableEq

/-- The network environment: what a GET of each URL would yield. -/
abbrev Net := String → NetOutcome

/-- Python exceptions that the embedded functions can let escape. -/
inductive PyErr where
  | httpError
  | urlError
  | fileNotFound
  | badZip
deriving DecidableEq

/-- Step-invocation events, for stating ordering properties. -/
inductive Ev where
  | fetch (url destDir : String)
  | extractStep (archivePath destDir : String)
deriving DecidableEq

/-- Program state threaded through the embedded functions. -/
structure St where
  fs : FS
  reqs : List String
  trace : List Ev
  out : List String
deriving DecidableEq

/-- Embeds `download_file(url, save_dir)`.  The destination filename is
`url.split("/")[-1]`; if the destination path exists the function
returns at once (no request, no filesystem change).  Otherwise the body
is streamed directly to the destination path: on success the full
content is there; on an HTTP status error or an early connection error
nothing is written; on a mid-transfer failure the partial content is
left at the destination path and a `URLError` escapes. -/
def download_file (url save_dir : String) (net : Net) (s : St) :
    St × Option PyErr :=
  let filename := lastSeg url
  let dest := pjoin save_dir filename
  let s := { s with trace := s.trace ++ [Ev.fetch url save_dir] }
  if fsExists s.fs dest then (s, none)
  else
    match net url with
    | NetOutcome.ok d =>
        ({ s with fs := fsWrite s.fs dest d, reqs := s.reqs ++ [url] }, none)
    | NetOutcome.httpError =>
        ({ s with reqs := s.reqs ++ [url] }, some PyErr.httpError)
    | NetOutcome.urlError =>
        ({ s with reqs := s.reqs ++ [url] }, some PyErr.urlError)
    | NetOutcome.midFail sofar =>
        ({ s with fs := fsWrite s.fs dest (FileData.raw sofar),
                  reqs := s.reqs ++ [url] }, some PyErr.urlError)

/-- The extraction loop body: each intact member is written to
`dst/<member name>`; a corrupt member raises `zipfile.error`, which the
loop catches and ignores. -/
def extractEntries (dst : String) (es : List ZEntry) (fs : FS) : FS :=
  match es with
  | [] => fs
  | e :: rest =>
      extractEntries dst rest
        (if e.2.2 then fsWrite fs (pjoin dst e.1) (FileData.raw e.2.1) else fs)

/-- Configuration (the `args` namespace built in `main`). -/
structure Args where
  save_dir : String
  whitelist : Option (List String)
  remove_zip : Bool
  download_images : Bool
  extract_images : Bool
  num_thread : Nat
deriving DecidableEq

/-- Embeds `extract_and_remove(filename, dst, args)`.  Opening a
missing file raises `FileNotFoundError`; opening a non-zip raises
`zipfile.BadZipFile`; otherwise every member is processed in container
order with corrupt members skipped, and afterwards the archive is
deleted exactly when `args.remove_zip` is set. -/
def extract_and_remove (filename dst : String) (args : Args) (s : St) :
    St × Option PyErr :=
  let s := { s with trace := s.trace ++ [Ev.extractStep filename dst] }
  match fsGet s.fs filename with
  | none => (s, some PyErr.fileNotFound)
  | some (FileData.raw _) => (s, some PyErr.badZip)
  | some (FileData.zipData es) =>
      let fs1 := extractEntries dst es s.fs
      ({ s with fs := if args.remove_zip then fsRemove fs1 filename else fs1 },
       none)

/-- Dataset descriptor (one record of `bop_all.json`). -/
structure Bop where
  dataset_name : String
  base : String
  base_url : String
  model : String
  model_url : String
  images : List String
  image_urls : List String
deriving DecidableEq

/-- Sequencing of statements that may raise: a raised exception skips
the rest of the block. -/
def pyseq (r : St × Option PyErr) (k : St → St × Option PyErr) :
    St × Option PyErr :=
  match r with
  | (s, none) => k s
  | (s, some e) => (s, some e)

/-- The `for img, img_url in zip(...)` loop of `download_all`. -/
def imageLoop (bop : Bop) (args : Args) (net : Net) :
    List (String × String) → St → St × Option PyErr
  | [], s => (s, none)
  | (img, img_url) :: rest, s =>
      let zip_path := pjoin args.save_dir bop.dataset_name
      pyseq (download_file img_url zip_path net s) (fun s1 =>
        if args.extract_images then
          pyseq
            (extract_and_remove (pjoin zip_path img)
              (pjoin args.save_dir bop.dataset_name) args s1)
            (fun s2 => imageLoop bop args net rest s2)
        else imageLoop bop args net rest s1)

/-- The `try` block of `download_all`: base download and extraction,
model download and extraction, then the optional image loop. -/
def jobBody (bop : Bop) (args : Args) (net : Net) (s : St) :
    St × Option PyErr :=
  pyseq (download_file bop.base_url args.save_dir net s) (fun s1 =>
  pyseq (extract_and_remove (pjoin args.save_dir bop.base) args.save_dir args s1)
    (fun s2 =>
  pyseq (download_file bop.model_url args.save_dir net s2) (fun s3 =>
  pyseq (extract_and_remove (pjoin args.save_dir bop.model)
      (pjoin args.save_dir bop.dataset_name) args s3) (fun s4 =>
  if args.download_images then
    imageLoop bop args net (bop.images.zip bop.image_urls) s4
  else (s4, none)))))

/-- Embeds `download_all(bop, args, sem)` minus the semaphore (the
semaphore is modelled separately by `SchedStep`): the body runs under
`except error.HTTPError`, which converts exactly an `HTTPError` into a
printed failure line naming the base archive; every other exception
escapes the job. -/
def download_all (bop : Bop) (args : Args) (net : Net) (s : St) :
    St × Option PyErr :=
  match jobBody bop args net s with
  | (s1, some PyErr.httpError) =>
      ({ s1 with out := s1.out ++ ["Download Failed: " ++ bop.base] }, none)
  | r => r

/-- Embeds the whitelist filter of `main`:
`if args.whitelist: bop_all = [bop for bop in bop_all if ...]`.
Python truthiness makes both an absent (`None`) and an empty whitelist
leave the manifest unfiltered; `argparse` with `nargs="+"` never
produces the empty list. -/
def applyWhitelist (wl : Option (List String)) (bops : List Bop) : List Bop :=
  match wl with
  | none => bops
  | some [] => bops
  | some l => bops.filter (fun b => l.contains b.dataset_name)

/-! ## Scheduler model

`main` submits one `download_all` task per descriptor to a
`ThreadPoolExecutor` and each task body runs inside
`with sem:` where `sem = Semaphore(args.num_thread)`.  The semaphore is
acquired as the very first action of `download_all`, before the first
fetch, and released only when the function returns (normally or by an
escaping exception), i.e. when the job reaches a terminal state.  The
interleaving of jobs is modelled by a transition system over per-job
phases: a `pending` job may start only while fewer than
`maxConcurrentJobs` jobs are `running`, and a `running` job may finish.
All fetch/extract activity of a job happens while it is `running`. -/

inductive JobPhase where
  | pending
  | running
  | done
deriving DecidableEq

abbrev Pool := List JobPhase

/-- Number of jobs currently holding the semaphore. -/
def runningCount : Pool → Nat
  | [] => 0
  | JobPhase.running :: js => runningCount js + 1
  | JobPhase.pending :: js => runningCount js
  | JobPhase.done :: js => runningCount js

/-- One scheduler transition: a pending job acquires the semaphore
(possible only below the bound), or a running job terminates and
releases it. -/
inductive SchedStep (maxJobs : Nat) : Pool → Pool → Prop where
  | acquire (l r : Pool)
      (h : runningCount (l ++ JobPhase.pending :: r) < maxJobs) :
      SchedStep maxJobs (l ++ JobPhase.pending :: r)
        (l ++ JobPhase.running :: r)
  | release (l r : Pool) :
      SchedStep maxJobs (l ++ JobPhase.running :: r)
        (l ++ JobPhase.done :: r)

/-! ## Filesystem update operations as explicit op lists

The run of a job is characterized below as the application of a list of
put/delete operations to the starting filesystem; the lemmas here give
the lookup semantics of such op lists. -/

inductive WOp where
  | put (p : String) (v : FileData)
  | del (p : String)
deriving DecidableEq

def opPath : WOp → String
  | WOp.put p _ => p
  | WOp.del p => p

def opVal : WOp → Option FileData
  | WOp.put _ v => some v
  | WOp.del _ => none

def applyOp (fs : FS) : WOp → FS
  | WOp.put p v => fsWrite fs p v
  | WOp.del p => fsRemove fs p

def applyOps (os : List WOp) (fs : FS) : FS :=
  match os with
  | [] => fs
  | o :: rest => applyOps rest (applyOp fs o)

/-- The effect of the last operation in `os` touching path `p`:
`none` when no operation touches `p`, otherwise `some` of the resulting
content (`none` inside meaning deleted). -/
def lastOp (os : List WOp) (p : String) : Option (Option FileData) :=
  match os with
  | [] => none
  | o :: rest =>
      match lastOp rest p with
      | some r => some r
      | none => if opPath o = p then some (opVal o) else none

/-- Two filesystems with the same lookup function. -/
def fsEquiv (a b : FS) : Prop := ∀ p, fsGet a p = fsGet b p

theorem fsGet_fsRemove (fs : FS) (p q : String) :
    fsGet (fsRemove fs p) q = if p = q then none else fsGet fs q := by
  induction fs with
  | nil => simp [fsRemove, fsGet]
  | cons e rest ih =>
      rw [fsRemove]
      by_cases hp : e.1 = p
      · rw [if_pos hp, ih]
        by_cases hq : p = q
        · rw [if_pos hq, if_pos hq]
        · rw [if_neg hq, if_neg hq, fsGet,
            if_neg (fun hh => hq (hp.symm.trans hh))]
      · rw [if_neg hp, fsGet, ih]
        by_cases heq : e.1 = q
        · have hpq : ¬ p = q := fun hh => hp (heq.trans hh.symm)
          rw [if_pos heq, if_neg hpq, fsGet, if_pos heq]
        · rw [if_neg heq]
          by_cases hq : p = q
          · rw [if_pos hq, if_pos hq]
          · rw [if_neg hq, if_neg hq, fsGet, if_neg heq]

theorem fsGet_fsWrite (fs : FS) (p : String) (v : FileData) (q : String) :
    fsGet (fsWrite fs p v) q = if p = q then some v else fsGet fs q := by
  by_cases h : p = q
  · simp [fsWrite, fsGet, h]
  · simp [fsWrite, fsGet, h, fsGet_fsRemove]

theorem fsGet_applyOp (fs : FS) (o : WOp) (q : String) :
    fsGet (applyOp fs o) q = if opPath o = q then opVal o else fsGet fs q := by
  cases o with
  | put p v => simp [applyOp, opPath, opVal, fsGet_fsWrite]
  | del p => simp [applyOp, opPath, opVal, fsGet_fsRemove]

theorem fsGet_applyOps (os : List WOp) (fs : FS) (q : String) :
    fsGet (applyOps os fs) q = (lastOp os q).getD (fsGet fs q) := by
  induction os generalizing fs with
  | nil => rfl
  | cons o rest ih =>
      simp only [applyOps, lastOp, ih, fsGet_applyOp]
      cases hr : lastOp rest q with
      | some r => simp
      | none =>
          by_cases hp : opPath o = q <;> simp [hp]

theorem applyOps_append (os1 os2 : List WOp) (fs : FS) :
    applyOps (os1 ++ os2) fs = applyOps os2 (applyOps os1 fs) := by
  induction os1 generalizing fs with
  | nil => rfl
  | cons o rest ih => simp [applyOps, ih]

theorem lastOp_append (os1 os2 : List WOp) (p : String) :
    lastOp (os1 ++ os2) p =
      match lastOp os2 p with
      | some r => some r
      | none => lastOp os1 p := by
  induction os1 with
  | nil => cases h2 : lastOp os2 p <;> simp [lastOp, h2]
  | cons o rest ih =>
      cases h2 : lastOp os2 p <;> cases hr : lastOp rest p <;>
        simp [lastOp, List.cons_append, ih, h2, hr]

theorem lastOp_eq_none (os : List WOp) (p : String)
    (h : p ∉ os.map opPath) : lastOp os p = none := by
  induction os with
  | nil => rfl
  | cons o rest ih =>
      simp only [List.map_cons, List.mem_cons] at h
      push_neg at h
      rw [lastOp, ih h.2, if_neg (fun hh => h.1 hh.symm)]

theorem mem_of_lastOp_isSome (os : List WOp) (p : String)
    (h : lastOp os p ≠ none) : p ∈ os.map opPath := by
  by_contra hc
  exact h (lastOp_eq_none os p hc)

theorem fsGet_applyOps_notMem (os : List WOp) (fs : FS) (p : String)
    (h : p ∉ os.map opPath) : fsGet (applyOps os fs) p = fsGet fs p := by
  simp [fsGet_applyOps, lastOp_eq_none os p h]

/-! ## Network helpers and per-step characterizations -/

def netZip (net : Net) (u : String) : Option (List ZEntry) :=
  match net u with
  | NetOutcome.ok (FileData.zipData es) => some es
  | _ => none

def zEs (net : Net) (u : String) : List ZEntry := (netZip net u).getD []

theorem net_ok_of_isSome (net : Net) (u : String)
    (h : (netZip net u).isSome = true) :
    net u = NetOutcome.ok (FileData.zipData (zEs net u)) := by
  cases hnu : net u with
  | ok d =>
      cases d with
      | raw s => simp [netZip, hnu] at h
      | zipData es => simp [zEs, netZip, hnu]
  | httpError => simp [netZip, hnu] at h
  | urlError => simp [netZip, hnu] at h
  | midFail sofar => simp [netZip, hnu] at h

theorem download_file_skip (url save_dir : String) (net : Net) (s : St)
    (h : fsExists s.fs (pjoin save_dir (lastSeg url)) = true) :
    download_file url save_dir net s =
      ({ s with trace := s.trace ++ [Ev.fetch url save_dir] }, none) := by
  simp [download_file, h]

theorem download_file_fresh (url save_dir : String) (net : Net) (s : St)
    (es : List ZEntry)
    (hne : fsGet s.fs (pjoin save_dir (lastSeg url)) = none)
    (hok : net url = NetOutcome.ok (FileData.zipData es)) :
    download_file url save_dir net s =
      ({ s with
          fs := fsWrite s.fs (pjoin save_dir (lastSeg url)) (FileData.zipData es),
          reqs := s.reqs ++ [url],
          trace := s.trace ++ [Ev.fetch url save_dir] }, none) := by
  simp [download_file, fsExists, hne, hok]

def entryOps (dst : String) (es : List ZEntry) : List WOp :=
  es.filterMap (fun e =>
    if e.2.2 then some (WOp.put (pjoin dst e.1) (FileData.raw e.2.1)) else none)

theorem extractEntries_eq_applyOps (dst : String) (es : List ZEntry) (fs : FS) :
    extractEntries dst es fs = applyOps (entryOps dst es) fs := by
  induction es generalizing fs with
  | nil => rfl
  | cons e rest ih =>
      by_cases hg : e.2.2
      · simp [extractEntries, entryOps, List.filterMap_cons, hg, applyOps, applyOp,
          ih, entryOps]
      · simp [extractEntries, entryOps, List.filterMap_cons, hg, ih, entryOps]

def remOp (args : Args) (p : String) : List WOp :=
  if args.remove_zip then [WOp.del p] else []

theorem extract_and_remove_ok (filename dst : String) (args : Args) (s : St)
    (es : List ZEntry)
    (h : fsGet s.fs filename = some (FileData.zipData es)) :
    extract_and_remove filename dst args s =
      ({ s with
          fs := applyOps (entryOps dst es ++ remOp args filename) s.fs,
          trace := s.trace ++ [Ev.extractStep filename dst] }, none) := by
  by_cases hr : args.remove_zip
  · simp [extract_and_remove, h, hr, remOp, applyOps_append,
      extractEntries_eq_applyOps, applyOps, applyOp]
  · simp [extract_and_remove, h, hr, remOp, extractEntries_eq_applyOps]

/-! ## Paths touched by one dataset job, and manifest well-formedness -/

def dsDir (bop : Bop) (args : Args) : String :=
  pjoin args.save_dir bop.dataset_name

def basePath (bop : Bop) (args : Args) : String :=
  pjoin args.save_dir bop.base

def modelPath (bop : Bop) (args : Args) : String :=
  pjoin args.save_dir bop.model

/-- `zip(bop["images"], bop["image_urls"])`. -/
def imgPairs (bop : Bop) : List (String × String) :=
  bop.images.zip bop.image_urls

/-- The download destinations of all archives of one job. -/
def archPaths (bop : Bop) (args : Args) : List String :=
  basePath bop args :: modelPath bop args ::
    (imgPairs bop).map (fun p => pjoin (dsDir bop args) p.1)

def imgEntryPaths (ds : String) (net : Net) :
    List (String × String) → List String
  | [] => []
  | p :: rest =>
      (entryOps ds (zEs net p.2)).map opPath ++ imgEntryPaths ds net rest

/-- Every path an extracted archive member of this job can be written to. -/
def allEntryPaths (bop : Bop) (args : Args) (net : Net) : List String :=
  (entryOps args.save_dir (zEs net bop.base_url)).map opPath ++
  (entryOps (dsDir bop args) (zEs net bop.model_url)).map opPath ++
  imgEntryPaths (dsDir bop args) net (imgPairs bop)

/-- Manifest invariant: each URL's final segment is the recorded
archive filename. -/
abbrev NamesOK (bop : Bop) : Prop :=
  lastSeg bop.base_url = bop.base ∧ lastSeg bop.model_url = bop.model ∧
  ∀ p ∈ imgPairs bop, lastSeg p.2 = p.1

/-- The network serves a zip body for every URL of the job. -/
abbrev NetOK (bop : Bop) (net : Net) : Prop :=
  (netZip net bop.base_url).isSome = true ∧
  (netZip net bop.model_url).isSome = true ∧
  ∀ p ∈ imgPairs bop, (netZip net p.2).isSome = true

/-- Sanity of the layout: the archives land at pairwise distinct paths
and no extracted member lands on an archive's download path. -/
abbrev SepOK (bop : Bop) (args : Args) (net : Net) : Prop :=
  (archPaths bop args).Nodup ∧
  ∀ q ∈ allEntryPaths bop args net, q ∉ archPaths bop args

/-! ## Operation lists of the two canonical runs -/

/-- Filesystem operations of the image loop on a fresh directory:
download each image archive, then (under `extract_images`) extract its
members and (under `remove_zip`) delete it. -/
def imgOpsF (ds : String) (args : Args) (net : Net) :
    List (String × String) → List WOp
  | [] => []
  | (img, url) :: rest =>
      (WOp.put (pjoin ds img) (FileData.zipData (zEs net url)) ::
        (if args.extract_images then
          entryOps ds (zEs net url) ++ remOp args (pjoin ds img)
        else [])) ++
      imgOpsF ds args net rest

/-- Filesystem operations of a whole job run on a fresh `save_dir`. -/
def fullOps (bop : Bop) (args : Args) (net : Net) : List WOp :=
  (WOp.put (basePath bop args) (FileData.zipData (zEs net bop.base_url)) ::
    (entryOps args.save_dir (zEs net bop.base_url) ++
      remOp args (basePath bop args))) ++
  (WOp.put (modelPath bop args) (FileData.zipData (zEs net bop.model_url)) ::
    (entryOps (dsDir bop args) (zEs net bop.model_url) ++
      remOp args (modelPath bop args))) ++
  (if args.download_images then
    imgOpsF (dsDir bop args) args net (imgPairs bop)
  else [])

def imgTraceF (ds : String) (ei : Bool) : List (String × String) → List Ev
  | [] => []
  | (img, url) :: rest =>
      (Ev.fetch url ds ::
        (if ei then [Ev.extractStep (pjoin ds img) ds] else [])) ++
      imgTraceF ds ei rest

/-- The step invocations of one job, in program order. -/
def jobTrace (bop : Bop) (args : Args) : List Ev :=
  [Ev.fetch bop.base_url args.save_dir,
   Ev.extractStep (basePath bop args) args.save_dir,
   Ev.fetch bop.model_url args.save_dir,
   Ev.extractStep (modelPath bop args) (dsDir bop args)] ++
  (if args.download_images then
    imgTraceF (dsDir bop args) args.extract_images (imgPairs bop)
  else [])

/-- The network requests of one job run on a fresh `save_dir`. -/
def jobReqs (bop : Bop) (args : Args) : List String :=
  bop.base_url :: bop.model_url ::
    (if args.download_images then (imgPairs bop).map Prod.snd else [])

theorem mem_remOp_path (args : Args) (p q : String)
    (h : q ∈ (remOp args p).map opPath) : q = p := by
  by_cases hr : args.remove_zip
  · simpa [remOp, hr, opPath] using h
  · simp [remOp, hr] at h

theorem imgEntry_subset (ds : String) (net : Net)
    (pairs : List (String × String)) (q : String × String) (hq : q ∈ pairs)
    (x : String) (hx : x ∈ (entryOps ds (zEs net q.2)).map opPath) :
    x ∈ imgEntryPaths ds net pairs := by
  induction pairs with
  | nil => cases hq
  | cons hd rest ih =>
      rcases List.mem_cons.mp hq with h | h
      · subst h
        exact List.mem_append_left _ hx
      · exact List.mem_append_right _ (ih h)

/-- Running the image loop when none of the image archives are on disk
yet: every pair is downloaded in order, and under `extract_images` each
archive is extracted (and possibly removed) right after its download. -/
theorem imageLoop_fresh (bop : Bop) (args : Args) (net : Net)
    (pairs : List (String × String)) (s : St)
    (hnames : ∀ p ∈ pairs, lastSeg p.2 = p.1)
    (hnet : ∀ p ∈ pairs, (netZip net p.2).isSome = true)
    (hnod : (pairs.map
      (fun p => pjoin (pjoin args.save_dir bop.dataset_name) p.1)).Nodup)
    (hsep : ∀ p ∈ pairs, ∀ q ∈ pairs,
      pjoin (pjoin args.save_dir bop.dataset_name) p.1 ∉
        (entryOps (pjoin args.save_dir bop.dataset_name)
          (zEs net q.2)).map opPath)
    (hfs : ∀ p ∈ pairs,
      fsGet s.fs (pjoin (pjoin args.save_dir bop.dataset_name) p.1) = none) :
    imageLoop bop args net pairs s =
      ({ fs := applyOps
           (imgOpsF (pjoin args.save_dir bop.dataset_name) args net pairs) s.fs,
         reqs := s.reqs ++ pairs.map Prod.snd,
         trace := s.trace ++
           imgTraceF (pjoin args.save_dir bop.dataset_name)
             args.extract_images pairs,
         out := s.out }, none) := by
  induction pairs generalizing s with
  | nil => simp [imageLoop, imgOpsF, imgTraceF, applyOps]
  | cons hd rest ih =>
      obtain ⟨img, url⟩ := hd
      have hmem : (img, url) ∈ (img, url) :: rest := List.mem_cons_self _ _
      have hname : lastSeg url = img := hnames _ hmem
      have hok := net_ok_of_isSome net url (hnet _ hmem)
      have hfs0 :
          fsGet s.fs (pjoin (pjoin args.save_dir bop.dataset_name)
            (lastSeg url)) = none := by
        rw [hname]; exact hfs _ hmem
      have hdl := download_file_fresh url
        (pjoin args.save_dir bop.dataset_name) net s (zEs net url) hfs0 hok
      rw [hname] at hdl
      have hnodup := List.nodup_cons.mp hnod
      have hnames' : ∀ p ∈ rest, lastSeg p.2 = p.1 :=
        fun p hp => hnames p (List.mem_cons_of_mem _ hp)
      have hnet' : ∀ p ∈ rest, (netZip net p.2).isSome = true :=
        fun p hp => hnet p (List.mem_cons_of_mem _ hp)
      have hsep' : ∀ p ∈ rest, ∀ q ∈ rest,
          pjoin (pjoin args.save_dir bop.dataset_name) p.1 ∉
            (entryOps (pjoin args.save_dir bop.dataset_name)
              (zEs net q.2)).map opPath :=
        fun p hp q hq => hsep p (List.mem_cons_of_mem _ hp) q
          (List.mem_cons_of_mem _ hq)
      have hne_hd : ∀ p ∈ rest,
          pjoin (pjoin args.save_dir bop.dataset_name) p.1 ≠
            pjoin (pjoin args.save_dir bop.dataset_name) img := by
        intro p hp hcontra
        exact hnodup.1 (List.mem_map.mpr ⟨p, hp, hcontra⟩)
      by_cases hei : args.extract_images
      · -- download, extract, recurse
        have hx : fsGet (fsWrite s.fs
            (pjoin (pjoin args.save_dir bop.dataset_name) img)
            (FileData.zipData (zEs net url)))
            (pjoin (pjoin args.save_dir bop.dataset_name) img)
            = some (FileData.zipData (zEs net url)) := by
          rw [fsGet_fsWrite, if_pos rfl]
        have hfs' : ∀ p ∈ rest,
            fsGet (applyOps
              (entryOps (pjoin args.save_dir bop.dataset_name) (zEs net url) ++
                remOp args (pjoin (pjoin args.save_dir bop.dataset_name) img))
              (fsWrite s.fs (pjoin (pjoin args.save_dir bop.dataset_name) img)
                (FileData.zipData (zEs net url))))
              (pjoin (pjoin args.save_dir bop.dataset_name) p.1) = none := by
          intro p hp
          rw [fsGet_applyOps_notMem]
          · rw [fsGet_fsWrite, if_neg (fun hh => hne_hd p hp hh.symm)]
            exact hfs p (List.mem_cons_of_mem _ hp)
          · intro hmem'
            rw [List.map_append] at hmem'
            rcases List.mem_append.mp hmem' with hA | hB
            · exact hsep p (List.mem_cons_of_mem _ hp) (img, url) hmem hA
            · exact hne_hd p hp (mem_remOp_path args _ _ hB)
        simp only [imageLoop, hdl, pyseq, hei, if_pos]
        rw [extract_and_remove_ok _ _ _ _ (zEs net url) (by simpa using hx)]
        simp only [pyseq]
        rw [ih _ hnames' hnet' hnodup.2 hsep' (by simpa using hfs')]
        simp [imgOpsF, imgTraceF, hei, applyOps_append, applyOps, applyOp,
          List.append_assoc]
      · -- download only, recurse
        have hfs' : ∀ p ∈ rest,
            fsGet (fsWrite s.fs (pjoin (pjoin args.save_dir bop.dataset_name) img)
              (FileData.zipData (zEs net url)))
              (pjoin (pjoin args.save_dir bop.dataset_name) p.1) = none := by
          intro p hp
          rw [fsGet_fsWrite, if_neg (fun hh => hne_hd p hp hh.symm)]
          exact hfs p (List.mem_cons_of_mem _ hp)
        simp only [imageLoop, hdl, pyseq, hei, if_neg, if_false]
        rw [ih _ hnames' hnet' hnodup.2 hsep' (by simpa using hfs')]
        simp [imgOpsF, imgTraceF, hei, applyOps_append, applyOps, applyOp,
          List.append_assoc]

/-- One job run against a `save_dir` holding none of the job's archive
paths: it performs exactly the requests of `jobReqs` in order, invokes
its steps in the order `jobTrace`, raises nothing, and transforms the
filesystem by `fullOps`. -/
theorem jobBody_fresh (bop : Bop) (args : Args) (net : Net) (s : St)
    (hN : NamesOK bop) (hE : NetOK bop net) (hS : SepOK bop args net)
    (hfs : ∀ p ∈ archPaths bop args, fsGet s.fs p = none) :
    jobBody bop args net s =
      ({ fs := applyOps (fullOps bop args net) s.fs,
         reqs := s.reqs ++ jobReqs bop args,
         trace := s.trace ++ jobTrace bop args,
         out := s.out }, none) := by
  obtain ⟨hN1, hN2, hN3⟩ := hN
  obtain ⟨hE1, hE2, hE3⟩ := hE
  obtain ⟨hSn, hSe⟩ := hS
  have hArch : archPaths bop args =
      pjoin args.save_dir bop.base :: pjoin args.save_dir bop.model ::
        (imgPairs bop).map
          (fun p => pjoin (pjoin args.save_dir bop.dataset_name) p.1) := rfl
  rw [hArch] at hSn
  have hnodup1 := List.nodup_cons.mp hSn
  have hnodup2 := List.nodup_cons.mp hnodup1.2
  have hbp_mem : pjoin args.save_dir bop.base ∈ archPaths bop args := by
    rw [hArch]; exact List.mem_cons_self _ _
  have hmp_mem : pjoin args.save_dir bop.model ∈ archPaths bop args := by
    rw [hArch]; exact List.mem_cons_of_mem _ (List.mem_cons_self _ _)
  have himg_mem : ∀ p ∈ imgPairs bop,
      pjoin (pjoin args.save_dir bop.dataset_name) p.1 ∈ archPaths bop args := by
    intro p hp
    rw [hArch]
    exact List.mem_cons_of_mem _
      (List.mem_cons_of_mem _ (List.mem_map.mpr ⟨p, hp, rfl⟩))
  have hmb_ne : pjoin args.save_dir bop.base ≠ pjoin args.save_dir bop.model :=
    fun h => hnodup1.1 (h ▸ List.mem_cons_self _ _)
  have himg_ne_b : ∀ p ∈ imgPairs bop,
      pjoin args.save_dir bop.base ≠
        pjoin (pjoin args.save_dir bop.dataset_name) p.1 := by
    intro p hp h
    exact hnodup1.1 (h ▸ List.mem_cons_of_mem _ (List.mem_map.mpr ⟨p, hp, rfl⟩))
  have himg_ne_m : ∀ p ∈ imgPairs bop,
      pjoin args.save_dir bop.model ≠
        pjoin (pjoin args.save_dir bop.dataset_name) p.1 := by
    intro p hp h
    exact hnodup2.1 (h ▸ List.mem_map.mpr ⟨p, hp, rfl⟩)
  -- membership of the entry-write paths of each archive in allEntryPaths
  have hsubB : ∀ x ∈ (entryOps args.save_dir (zEs net bop.base_url)).map opPath,
      x ∈ allEntryPaths bop args net := by
    intro x hx
    exact List.mem_append_left _ (List.mem_append_left _ hx)
  have hsubM : ∀ x ∈ (entryOps (pjoin args.save_dir bop.dataset_name)
        (zEs net bop.model_url)).map opPath,
      x ∈ allEntryPaths bop args net := by
    intro x hx
    exact List.mem_append_left _ (List.mem_append_right _ hx)
  have hsubI : ∀ q ∈ imgPairs bop,
      ∀ x ∈ (entryOps (pjoin args.save_dir bop.dataset_name)
        (zEs net q.2)).map opPath, x ∈ allEntryPaths bop args net := by
    intro q hq x hx
    exact List.mem_append_right _ (imgEntry_subset _ net (imgPairs bop) q hq x hx)
  -- the not-in-op-path facts needed for lookups through the base/model ops
  have hnmB : ∀ x, x ∈ archPaths bop args →
      x ≠ pjoin args.save_dir bop.base →
      x ∉ (entryOps args.save_dir (zEs net bop.base_url) ++
        remOp args (pjoin args.save_dir bop.base)).map opPath := by
    intro x hxa hxb hmem'
    rw [List.map_append] at hmem'
    rcases List.mem_append.mp hmem' with hA | hB
    · exact hSe x (hsubB x hA) hxa
    · exact hxb (mem_remOp_path args _ _ hB)
  have hnmM : ∀ x, x ∈ archPaths bop args →
      x ≠ pjoin args.save_dir bop.model →
      x ∉ (entryOps (pjoin args.save_dir bop.dataset_name)
        (zEs net bop.model_url) ++
        remOp args (pjoin args.save_dir bop.model)).map opPath := by
    intro x hxa hxm hmem'
    rw [List.map_append] at hmem'
    rcases List.mem_append.mp hmem' with hA | hB
    · exact hSe x (hsubM x hA) hxa
    · exact hxm (mem_remOp_path args _ _ hB)
  -- step rewrite rules at arbitrary states
  have hdlB : ∀ t : St, fsGet t.fs (pjoin args.save_dir bop.base) = none →
      download_file bop.base_url args.save_dir net t =
      ({ t with
          fs := fsWrite t.fs (pjoin args.save_dir bop.base)
            (FileData.zipData (zEs net bop.base_url)),
          reqs := t.reqs ++ [bop.base_url],
          trace := t.trace ++ [Ev.fetch bop.base_url args.save_dir] }, none) := by
    intro t ht
    have h0 := download_file_fresh bop.base_url args.save_dir net t
      (zEs net bop.base_url) (by rw [hN1]; exact ht)
      (net_ok_of_isSome net bop.base_url hE1)
    rw [hN1] at h0
    exact h0
  have hdlM : ∀ t : St, fsGet t.fs (pjoin args.save_dir bop.model) = none →
      download_file bop.model_url args.save_dir net t =
      ({ t with
          fs := fsWrite t.fs (pjoin args.save_dir bop.model)
            (FileData.zipData (zEs net bop.model_url)),
          reqs := t.reqs ++ [bop.model_url],
          trace := t.trace ++ [Ev.fetch bop.model_url args.save_dir] }, none) := by
    intro t ht
    have h0 := download_file_fresh bop.model_url args.save_dir net t
      (zEs net bop.model_url) (by rw [hN2]; exact ht)
      (net_ok_of_isSome net bop.model_url hE2)
    rw [hN2] at h0
    exact h0
  -- unfold the body and walk through the four fixed steps
  simp only [jobBody]
  rw [hdlB s (hfs _ hbp_mem)]
  simp only [pyseq]
  rw [extract_and_remove_ok _ _ _ _ (zEs net bop.base_url)
    (by simp [fsGet_fsWrite])]
  simp only [pyseq]
  rw [hdlM _ (by
    show fsGet (applyOps _ _) _ = none
    rw [fsGet_applyOps_notMem _ _ _
      (hnmB _ hmp_mem (fun h => hmb_ne h.symm))]
    rw [fsGet_fsWrite, if_neg hmb_ne]
    exact hfs _ hmp_mem)]
  simp only [pyseq]
  rw [extract_and_remove_ok _ _ _ _ (zEs net bop.model_url)
    (by simp [fsGet_fsWrite])]
  simp only [pyseq]
  by_cases hdi : args.download_images
  · rw [if_pos hdi]
    rw [imageLoop_fresh bop args net (bop.images.zip bop.image_urls) _
      hN3 hE3 hnodup2.2
      (by
        intro p hp q hq hmem'
        exact hSe _ (hsubI q hq _ hmem') (himg_mem p hp))
      (by
        intro p hp
        show fsGet (applyOps _ (fsWrite (applyOps _ (fsWrite s.fs _ _)) _ _)) _
          = none
        rw [fsGet_applyOps_notMem _ _ _
            (hnmM _ (himg_mem p hp) (fun h => himg_ne_m p hp h.symm)),
          fsGet_fsWrite, if_neg (himg_ne_m p hp),
          fsGet_applyOps_notMem _ _ _
            (hnmB _ (himg_mem p hp) (fun h => himg_ne_b p hp h.symm)),
          fsGet_fsWrite, if_neg (himg_ne_b p hp)]
        exact hfs _ (himg_mem p hp))]
    simp [fullOps, jobReqs, jobTrace, basePath, modelPath, dsDir, imgPairs,
      applyOps_append, applyOps, applyOp, hdi, List.append_assoc]
  · rw [if_neg hdi]
    simp [fullOps, jobReqs, jobTrace, basePath, modelPath, dsDir, imgPairs,
      applyOps_append, applyOps, applyOp, hdi, List.append_assoc]

/-! ## The second run: all archives already on disk -/

def imgOpsE (ds : String) (net : Net) : List (String × String) → List WOp
  | [] => []
  | (_, url) :: rest => entryOps ds (zEs net url) ++ imgOpsE ds net rest

/-- Filesystem operations of a job whose downloads are all skipped
(with `remove_zip` off): only the re-extractions write. -/
def extractOps (bop : Bop) (args : Args) (net : Net) : List WOp :=
  entryOps args.save_dir (zEs net bop.base_url) ++
  entryOps (dsDir bop args) (zEs net bop.model_url) ++
  (if args.download_images && args.extract_images then
    imgOpsE (dsDir bop args) net (imgPairs bop)
  else [])

/-- Every archive the job will look for sits at its download path with
the content the network would serve (image archives only matter when
`download_images` is on). -/
def Saturated (bop : Bop) (args : Args) (net : Net) (fs : FS) : Prop :=
  fsGet fs (basePath bop args)
    = some (FileData.zipData (zEs net bop.base_url)) ∧
  fsGet fs (modelPath bop args)
    = some (FileData.zipData (zEs net bop.model_url)) ∧
  (args.download_images = true →
    ∀ p ∈ imgPairs bop, fsGet fs (pjoin (dsDir bop args) p.1)
      = some (FileData.zipData (zEs net p.2)))

theorem imageLoop_saturated (bop : Bop) (args : Args) (net : Net)
    (pairs : List (String × String)) (s : St)
    (hnames : ∀ p ∈ pairs, lastSeg p.2 = p.1)
    (hsep : ∀ p ∈ pairs, ∀ q ∈ pairs,
      pjoin (pjoin args.save_dir bop.dataset_name) p.1 ∉
        (entryOps (pjoin args.save_dir bop.dataset_name)
          (zEs net q.2)).map opPath)
    (hrm : args.remove_zip = false)
    (hfs : ∀ p ∈ pairs,
      fsGet s.fs (pjoin (pjoin args.save_dir bop.dataset_name) p.1)
        = some (FileData.zipData (zEs net p.2))) :
    imageLoop bop args net pairs s =
      ({ fs := applyOps
           (if args.extract_images then
             imgOpsE (pjoin args.save_dir bop.dataset_name) net pairs
           else []) s.fs,
         reqs := s.reqs,
         trace := s.trace ++
           imgTraceF (pjoin args.save_dir bop.dataset_name)
             args.extract_images pairs,
         out := s.out }, none) := by
  induction pairs generalizing s with
  | nil => by_cases hei : args.extract_images <;>
      simp [imageLoop, imgOpsE, imgTraceF, applyOps, hei]
  | cons hd rest ih =>
      obtain ⟨img, url⟩ := hd
      have hmem : (img, url) ∈ (img, url) :: rest := List.mem_cons_self _ _
      have hname : lastSeg url = img := hnames _ hmem
      have hskip : download_file url (pjoin args.save_dir bop.dataset_name) net s
          = ({ s with trace := s.trace ++
              [Ev.fetch url (pjoin args.save_dir bop.dataset_name)] }, none) :=
        download_file_skip url _ net s
          (by rw [hname]; simp [fsExists, hfs _ hmem])
      have hnames' : ∀ p ∈ rest, lastSeg p.2 = p.1 :=
        fun p hp => hnames p (List.mem_cons_of_mem _ hp)
      have hsep' : ∀ p ∈ rest, ∀ q ∈ rest,
          pjoin (pjoin args.save_dir bop.dataset_name) p.1 ∉
            (entryOps (pjoin args.save_dir bop.dataset_name)
              (zEs net q.2)).map opPath :=
        fun p hp q hq => hsep p (List.mem_cons_of_mem _ hp) q
          (List.mem_cons_of_mem _ hq)
      by_cases hei : args.extract_images
      · have hfs' : ∀ p ∈ rest,
            fsGet (applyOps
              (entryOps (pjoin args.save_dir bop.dataset_name) (zEs net url) ++
                remOp args (pjoin (pjoin args.save_dir bop.dataset_name) img))
              s.fs)
              (pjoin (pjoin args.save_dir bop.dataset_name) p.1)
              = some (FileData.zipData (zEs net p.2)) := by
          intro p hp
          rw [fsGet_applyOps_notMem]
          · exact hfs p (List.mem_cons_of_mem _ hp)
          · intro hmem'
            rw [List.map_append] at hmem'
            rcases List.mem_append.mp hmem' with hA | hB
            · exact hsep p (List.mem_cons_of_mem _ hp) (img, url) hmem hA
            · rw [remOp, hrm] at hB
              simp at hB
        simp only [imageLoop, hskip, pyseq, hei, if_pos]
        rw [extract_and_remove_ok _ _ _ _ (zEs net url)
          (by simpa using hfs _ hmem)]
        simp only [pyseq]
        rw [ih _ hnames' hsep' (by simpa using hfs')]
        simp [imgOpsE, imgTraceF, hei, remOp, hrm, applyOps_append, applyOps,
          applyOp, List.append_assoc]
      · simp only [imageLoop, hskip, pyseq, hei, if_neg, if_false]
        rw [ih _ hnames' hsep'
          (by simpa using fun p hp => hfs p (List.mem_cons_of_mem _ hp))]
        simp [imgOpsE, imgTraceF, hei, applyOps, List.append_assoc]

/-- One job run over a filesystem already holding every archive of the
job (with `remove_zip` off): every download is skipped — no network
request at all — and only the re-extraction writes happen. -/
theorem jobBody_saturated (bop : Bop) (args : Args) (net : Net) (s : St)
    (hN : NamesOK bop) (hS : SepOK bop args net)
    (hrm : args.remove_zip = false)
    (hsat : Saturated bop args net s.fs) :
    jobBody bop args net s =
      ({ fs := applyOps (extractOps bop args net) s.fs,
         reqs := s.reqs,
         trace := s.trace ++ jobTrace bop args,
         out := s.out }, none) := by
  obtain ⟨hN1, hN2, hN3⟩ := hN
  obtain ⟨hSn, hSe⟩ := hS
  obtain ⟨hsatB, hsatM, hsatI⟩ := hsat
  have hArch : archPaths bop args =
      pjoin args.save_dir bop.base :: pjoin args.save_dir bop.model ::
        (imgPairs bop).map
          (fun p => pjoin (pjoin args.save_dir bop.dataset_name) p.1) := rfl
  have hbp_mem : pjoin args.save_dir bop.base ∈ archPaths bop args := by
    rw [hArch]; exact List.mem_cons_self _ _
  have hmp_mem : pjoin args.save_dir bop.model ∈ archPaths bop args := by
    rw [hArch]; exact List.mem_cons_of_mem _ (List.mem_cons_self _ _)
  have himg_mem : ∀ p ∈ imgPairs bop,
      pjoin (pjoin args.save_dir bop.dataset_name) p.1 ∈ archPaths bop args := by
    intro p hp
    rw [hArch]
    exact List.mem_cons_of_mem _
      (List.mem_cons_of_mem _ (List.mem_map.mpr ⟨p, hp, rfl⟩))
  have hsubB : ∀ x ∈ (entryOps args.save_dir (zEs net bop.base_url)).map opPath,
      x ∈ allEntryPaths bop args net := by
    intro x hx
    exact List.mem_append_left _ (List.mem_append_left _ hx)
  have hsubM : ∀ x ∈ (entryOps (pjoin args.save_dir bop.dataset_name)
        (zEs net bop.model_url)).map opPath,
      x ∈ allEntryPaths bop args net := by
    intro x hx
    exact List.mem_append_left _ (List.mem_append_right _ hx)
  have hsubI : ∀ q ∈ imgPairs bop,
      ∀ x ∈ (entryOps (pjoin args.save_dir bop.dataset_name)
        (zEs net q.2)).map opPath, x ∈ allEntryPaths bop args net := by
    intro q hq x hx
    exact List.mem_append_right _ (imgEntry_subset _ net (imgPairs bop) q hq x hx)
  have hnmB : ∀ x, x ∈ archPaths bop args →
      x ∉ (entryOps args.save_dir (zEs net bop.base_url) ++
        remOp args (pjoin args.save_dir bop.base)).map opPath := by
    intro x hxa hmem'
    rw [List.map_append] at hmem'
    rcases List.mem_append.mp hmem' with hA | hB
    · exact hSe x (hsubB x hA) hxa
    · rw [remOp, hrm] at hB
      simp at hB
  have hnmM : ∀ x, x ∈ archPaths bop args →
      x ∉ (entryOps (pjoin args.save_dir bop.dataset_name)
        (zEs net bop.model_url) ++
        remOp args (pjoin args.save_dir bop.model)).map opPath := by
    intro x hxa hmem'
    rw [List.map_append] at hmem'
    rcases List.mem_append.mp hmem' with hA | hB
    · exact hSe x (hsubM x hA) hxa
    · rw [remOp, hrm] at hB
      simp at hB
  have hskipB : ∀ t : St,
      fsGet t.fs (pjoin args.save_dir bop.base)
        = some (FileData.zipData (zEs net bop.base_url)) →
      download_file bop.base_url args.save_dir net t =
        ({ t with trace := t.trace ++
            [Ev.fetch bop.base_url args.save_dir] }, none) := by
    intro t ht
    exact download_file_skip bop.base_url args.save_dir net t
      (by rw [hN1]; simp [fsExists, ht])
  have hskipM : ∀ t : St,
      fsGet t.fs (pjoin args.save_dir bop.model)
        = some (FileData.zipData (zEs net bop.model_url)) →
      download_file bop.model_url args.save_dir net t =
        ({ t with trace := t.trace ++
            [Ev.fetch bop.model_url args.save_dir] }, none) := by
    intro t ht
    exact download_file_skip bop.model_url args.save_dir net t
      (by rw [hN2]; simp [fsExists, ht])
  simp only [jobBody]
  rw [hskipB s hsatB]
  simp only [pyseq]
  rw [extract_and_remove_ok _ _ _ _ (zEs net bop.base_url) (by simpa using hsatB)]
  simp only [pyseq]
  rw [hskipM _ (by
    show fsGet (applyOps _ _) _ = some _
    rw [fsGet_applyOps_notMem _ _ _ (hnmB _ hmp_mem)]
    exact hsatM)]
  simp only [pyseq]
  rw [extract_and_remove_ok _ _ _ _ (zEs net bop.model_url) (by
    show fsGet (applyOps _ _) _ = some _
    rw [fsGet_applyOps_notMem _ _ _ (hnmB _ hmp_mem)]
    exact hsatM)]
  simp only [pyseq]
  by_cases hdi : args.download_images
  · rw [if_pos hdi]
    rw [imageLoop_saturated bop args net (bop.images.zip bop.image_urls) _
      hN3
      (by
        intro p hp q hq hmem'
        exact hSe _ (hsubI q hq _ hmem') (himg_mem p hp))
      hrm
      (by
        intro p hp
        show fsGet (applyOps _ (applyOps _ s.fs)) _ = some _
        rw [fsGet_applyOps_notMem _ _ _ (hnmM _ (himg_mem p hp)),
          fsGet_applyOps_notMem _ _ _ (hnmB _ (himg_mem p hp))]
        exact hsatI hdi p hp)]
    simp [extractOps, jobTrace, basePath, modelPath, dsDir, imgPairs,
      applyOps_append, applyOps, applyOp, hdi, remOp, hrm, List.append_assoc]
  · rw [if_neg hdi]
    simp [extractOps, jobTrace, basePath, modelPath, dsDir, imgPairs,
      applyOps_append, applyOps, applyOp, hdi, remOp, hrm, List.append_assoc]

/-! ## Composing the two runs: idempotence bookkeeping -/

theorem lastOp_cons_ne (o : WOp) (os : List WOp) (p : String)
    (h : opPath o ≠ p) : lastOp (o :: os) p = lastOp os p := by
  cases hr : lastOp os p <;> simp [lastOp, hr, h]

theorem lastOp_cons_put_ne (q : String) (v : FileData) (os : List WOp)
    (p : String) (h : q ≠ p) :
    lastOp (WOp.put q v :: os) p = lastOp os p := by
  cases hr : lastOp os p <;> simp [lastOp, hr, opPath, h]

theorem bool_eq_false {b : Bool} (h : ¬ b = true) : b = false := by
  cases b
  · rfl
  · exact absurd rfl h

theorem lastOp_cons_put (p : String) (v : FileData) (os : List WOp)
    (h : lastOp os p = none) :
    lastOp (WOp.put p v :: os) p = some (some v) := by
  simp [lastOp, h, opPath, opVal]

theorem bp_mem_arch (bop : Bop) (args : Args) :
    pjoin args.save_dir bop.base ∈ archPaths bop args :=
  List.mem_cons_self _ _

theorem mp_mem_arch (bop : Bop) (args : Args) :
    pjoin args.save_dir bop.model ∈ archPaths bop args :=
  List.mem_cons_of_mem _ (List.mem_cons_self _ _)

theorem img_mem_arch (bop : Bop) (args : Args) (p : String × String)
    (hp : p ∈ imgPairs bop) :
    pjoin (pjoin args.save_dir bop.dataset_name) p.1 ∈ archPaths bop args :=
  List.mem_cons_of_mem _
    (List.mem_cons_of_mem _ (List.mem_map.mpr ⟨p, hp, rfl⟩))

theorem entryB_sub (bop : Bop) (args : Args) (net : Net) :
    ∀ x ∈ (entryOps args.save_dir (zEs net bop.base_url)).map opPath,
      x ∈ allEntryPaths bop args net :=
  fun _ hx => List.mem_append_left _ (List.mem_append_left _ hx)

theorem entryM_sub (bop : Bop) (args : Args) (net : Net) :
    ∀ x ∈ (entryOps (pjoin args.save_dir bop.dataset_name)
      (zEs net bop.model_url)).map opPath,
      x ∈ allEntryPaths bop args net :=
  fun _ hx => List.mem_append_left _ (List.mem_append_right _ hx)

theorem entryI_sub (bop : Bop) (args : Args) (net : Net) (q : String × String)
    (hq : q ∈ imgPairs bop) :
    ∀ x ∈ (entryOps (pjoin args.save_dir bop.dataset_name)
      (zEs net q.2)).map opPath,
      x ∈ allEntryPaths bop args net :=
  fun x hx =>
    List.mem_append_right _ (imgEntry_subset _ net (imgPairs bop) q hq x hx)

theorem imgEntryPaths_mem (ds : String) (net : Net)
    (pairs : List (String × String)) (x : String)
    (hx : x ∈ imgEntryPaths ds net pairs) :
    ∃ q ∈ pairs, x ∈ (entryOps ds (zEs net q.2)).map opPath := by
  induction pairs with
  | nil => simp [imgEntryPaths] at hx
  | cons hd rest ih =>
      rcases List.mem_append.mp hx with hA | hB
      · exact ⟨hd, List.mem_cons_self _ _, hA⟩
      · obtain ⟨q, hq, hqx⟩ := ih hB
        exact ⟨q, List.mem_cons_of_mem _ hq, hqx⟩

theorem imgOpsE_path_mem (ds : String) (net : Net)
    (pairs : List (String × String)) (x : String)
    (hx : x ∈ (imgOpsE ds net pairs).map opPath) :
    x ∈ imgEntryPaths ds net pairs := by
  induction pairs with
  | nil => simp [imgOpsE] at hx
  | cons hd rest ih =>
      obtain ⟨img, url⟩ := hd
      rw [imgOpsE, List.map_append] at hx
      rcases List.mem_append.mp hx with hA | hB
      · exact List.mem_append_left _ hA
      · exact List.mem_append_right _ (ih hB)

theorem imgOpsF_path_mem (ds : String) (args : Args) (net : Net)
    (pairs : List (String × String)) (x : String)
    (hx : x ∈ (imgOpsF ds args net pairs).map opPath) :
    x ∈ pairs.map (fun p => pjoin ds p.1) ∨ x ∈ imgEntryPaths ds net pairs := by
  induction pairs with
  | nil => simp [imgOpsF] at hx
  | cons hd rest ih =>
      obtain ⟨img, url⟩ := hd
      rw [imgOpsF, List.map_append, List.map_cons] at hx
      rcases List.mem_append.mp hx with hA | hB
      · rcases List.mem_cons.mp hA with h1 | h2
        · left
          exact List.mem_cons.mpr (Or.inl h1)
        · by_cases hei : args.extract_images
          · rw [if_pos hei, List.map_append] at h2
            rcases List.mem_append.mp h2 with h3 | h4
            · right
              exact List.mem_append_left _ h3
            · left
              exact List.mem_cons.mpr (Or.inl (mem_remOp_path args _ _ h4))
          · rw [if_neg hei] at h2
            simp at h2
      · rcases ih hB with h1 | h2
        · left
          exact List.mem_cons_of_mem _ h1
        · right
          exact List.mem_append_right _ h2

/-- In a fresh image-loop run the last operation on an image archive's
own path is its download. -/
theorem lastOp_imgOpsF_mem (ds : String) (args : Args) (net : Net)
    (pairs : List (String × String)) (p : String × String) (hp : p ∈ pairs)
    (hrm : args.remove_zip = false)
    (hnod : (pairs.map (fun q => pjoin ds q.1)).Nodup)
    (hsep : ∀ a ∈ pairs, ∀ b ∈ pairs,
      pjoin ds a.1 ∉ (entryOps ds (zEs net b.2)).map opPath) :
    lastOp (imgOpsF ds args net pairs) (pjoin ds p.1)
      = some (some (FileData.zipData (zEs net p.2))) := by
  induction pairs with
  | nil => cases hp
  | cons hd rest ih =>
      have hnodup := List.nodup_cons.mp hnod
      rcases List.mem_cons.mp hp with h1 | h2
      · subst h1
        obtain ⟨img, url⟩ := p
        show lastOp (imgOpsF ds args net ((img, url) :: rest)) (pjoin ds img)
          = some (some (FileData.zipData (zEs net url)))
        rw [imgOpsF, lastOp_append]
        have hrest : lastOp (imgOpsF ds args net rest) (pjoin ds img)
            = none := by
          apply lastOp_eq_none
          intro hmem'
          rcases imgOpsF_path_mem ds args net rest _ hmem' with hA | hB
          · exact hnodup.1 hA
          · obtain ⟨q, hq, hqx⟩ := imgEntryPaths_mem ds net rest _ hB
            exact hsep (img, url) (List.mem_cons_self _ _) q
              (List.mem_cons_of_mem _ hq) hqx
        rw [hrest]
        have htail : lastOp
            (if args.extract_images then
              entryOps ds (zEs net url) ++ remOp args (pjoin ds img)
            else []) (pjoin ds img) = none := by
          by_cases hei : args.extract_images
          · rw [if_pos hei]
            apply lastOp_eq_none
            intro hmem'
            rw [List.map_append] at hmem'
            rcases List.mem_append.mp hmem' with hA | hB
            · exact hsep (img, url) (List.mem_cons_self _ _) (img, url)
                (List.mem_cons_self _ _) hA
            · rw [remOp, hrm] at hB
              simp at hB
          · rw [if_neg hei]
            rfl
        rw [lastOp_cons_put _ _ _ htail]
      · obtain ⟨img, url⟩ := hd
        have hsep' : ∀ a ∈ rest, ∀ b ∈ rest,
            pjoin ds a.1 ∉ (entryOps ds (zEs net b.2)).map opPath :=
          fun a ha b hb => hsep a (List.mem_cons_of_mem _ ha) b
            (List.mem_cons_of_mem _ hb)
        rw [imgOpsF, lastOp_append, ih h2 hnodup.2 hsep']

theorem lastOp_append_none (os1 os2 : List WOp) (p : String)
    (h : lastOp os2 p = none) : lastOp (os1 ++ os2) p = lastOp os1 p := by
  rw [lastOp_append, h]

theorem lastOp_append_some (os1 os2 : List WOp) (p : String)
    (r : Option FileData) (h : lastOp os2 p = some r) :
    lastOp (os1 ++ os2) p = some r := by
  rw [lastOp_append, h]

/-- After a fresh run (with `remove_zip` off) every archive of the job
is on disk with the content the network serves. -/
theorem saturated_fullOps (bop : Bop) (args : Args) (net : Net) (fs : FS)
    (hS : SepOK bop args net) (hrm : args.remove_zip = false) :
    Saturated bop args net (applyOps (fullOps bop args net) fs) := by
  obtain ⟨hSn, hSe⟩ := hS
  have hArch : archPaths bop args =
      pjoin args.save_dir bop.base :: pjoin args.save_dir bop.model ::
        (imgPairs bop).map
          (fun p => pjoin (pjoin args.save_dir bop.dataset_name) p.1) := rfl
  rw [hArch] at hSn
  have hnodup1 := List.nodup_cons.mp hSn
  have hnodup2 := List.nodup_cons.mp hnodup1.2
  have hmb_ne : pjoin args.save_dir bop.base ≠ pjoin args.save_dir bop.model :=
    fun h => hnodup1.1 (h ▸ List.mem_cons_self _ _)
  have hEbN : ∀ x, x ∈ archPaths bop args →
      lastOp (entryOps args.save_dir (zEs net bop.base_url)) x = none :=
    fun x hx => lastOp_eq_none _ _
      (fun hmem' => hSe x (entryB_sub bop args net x hmem') hx)
  have hEmN : ∀ x, x ∈ archPaths bop args →
      lastOp (entryOps (pjoin args.save_dir bop.dataset_name)
        (zEs net bop.model_url)) x = none :=
    fun x hx => lastOp_eq_none _ _
      (fun hmem' => hSe x (entryM_sub bop args net x hmem') hx)
  have hsepI : ∀ a ∈ imgPairs bop, ∀ b ∈ imgPairs bop,
      pjoin (pjoin args.save_dir bop.dataset_name) a.1 ∉
        (entryOps (pjoin args.save_dir bop.dataset_name)
          (zEs net b.2)).map opPath :=
    fun a ha b hb hmem' =>
      hSe _ (entryI_sub bop args net b hb _ hmem') (img_mem_arch bop args a ha)
  have hIFb : lastOp
      (if args.download_images then
        imgOpsF (pjoin args.save_dir bop.dataset_name) args net (imgPairs bop)
      else []) (pjoin args.save_dir bop.base) = none := by
    by_cases hdi : args.download_images
    · rw [if_pos hdi]
      apply lastOp_eq_none
      intro hmem'
      rcases imgOpsF_path_mem _ _ _ _ _ hmem' with hA | hB
      · exact hnodup1.1 (List.mem_cons_of_mem _ hA)
      · obtain ⟨q, hq, hqx⟩ := imgEntryPaths_mem _ _ _ _ hB
        exact hSe _ (entryI_sub bop args net q hq _ hqx) (bp_mem_arch bop args)
    · rw [if_neg hdi]
      rfl
  have hIFm : lastOp
      (if args.download_images then
        imgOpsF (pjoin args.save_dir bop.dataset_name) args net (imgPairs bop)
      else []) (pjoin args.save_dir bop.model) = none := by
    by_cases hdi : args.download_images
    · rw [if_pos hdi]
      apply lastOp_eq_none
      intro hmem'
      rcases imgOpsF_path_mem _ _ _ _ _ hmem' with hA | hB
      · exact hnodup2.1 hA
      · obtain ⟨q, hq, hqx⟩ := imgEntryPaths_mem _ _ _ _ hB
        exact hSe _ (entryI_sub bop args net q hq _ hqx) (mp_mem_arch bop args)
    · rw [if_neg hdi]
      rfl
  have hfo : fullOps bop args net =
      (WOp.put (pjoin args.save_dir bop.base)
          (FileData.zipData (zEs net bop.base_url)) ::
        entryOps args.save_dir (zEs net bop.base_url)) ++
      (WOp.put (pjoin args.save_dir bop.model)
          (FileData.zipData (zEs net bop.model_url)) ::
        entryOps (pjoin args.save_dir bop.dataset_name)
          (zEs net bop.model_url)) ++
      (if args.download_images then
        imgOpsF (pjoin args.save_dir bop.dataset_name) args net (imgPairs bop)
      else []) := by
    simp [fullOps, basePath, modelPath, dsDir, remOp, hrm]
  refine ⟨?_, ?_, ?_⟩
  · show fsGet (applyOps (fullOps bop args net) fs)
      (pjoin args.save_dir bop.base)
      = some (FileData.zipData (zEs net bop.base_url))
    rw [fsGet_applyOps, hfo,
      lastOp_append_none _ _ _ hIFb,
      lastOp_append_none _ _ _ (by
        rw [lastOp_cons_put_ne _ _ _ _ (fun h => hmb_ne h.symm)]
        exact hEmN _ (bp_mem_arch bop args)),
      lastOp_cons_put _ _ _ (hEbN _ (bp_mem_arch bop args))]
    rfl
  · show fsGet (applyOps (fullOps bop args net) fs)
      (pjoin args.save_dir bop.model)
      = some (FileData.zipData (zEs net bop.model_url))
    rw [fsGet_applyOps, hfo,
      lastOp_append_none _ _ _ hIFm,
      lastOp_append_some _ _ _ _
        (lastOp_cons_put _ _ _ (hEmN _ (mp_mem_arch bop args)))]
    rfl
  · intro hdi p hp
    show fsGet (applyOps (fullOps bop args net) fs)
      (pjoin (pjoin args.save_dir bop.dataset_name) p.1)
      = some (FileData.zipData (zEs net p.2))
    rw [fsGet_applyOps, hfo,
      lastOp_append_some _ _ _ _ (by
        rw [if_pos hdi]
        exact lastOp_imgOpsF_mem _ args net _ p hp hrm hnodup2.2 hsepI)]
    rfl

theorem lastOp_imgOpsF_eq_imgOpsE (ds : String) (args : Args) (net : Net)
    (pairs : List (String × String)) (p : String)
    (hrm : args.remove_zip = false)
    (hni : p ∉ pairs.map (fun q => pjoin ds q.1)) :
    lastOp (imgOpsF ds args net pairs) p =
      lastOp (if args.extract_images then imgOpsE ds net pairs else []) p := by
  induction pairs with
  | nil =>
      by_cases hei : args.extract_images <;>
        simp [imgOpsF, imgOpsE, lastOp, hei]
  | cons hd rest ih =>
      obtain ⟨img, url⟩ := hd
      have hne : pjoin ds img ≠ p := by
        intro h
        exact hni (List.mem_cons.mpr (Or.inl h.symm))
      have hni' : p ∉ rest.map (fun q => pjoin ds q.1) :=
        fun hm => hni (List.mem_cons_of_mem _ hm)
      have hR : remOp args (pjoin ds img) = [] := by
        simp [remOp, hrm]
      by_cases hei : args.extract_images
      · have hL : imgOpsF ds args net ((img, url) :: rest) =
            (WOp.put (pjoin ds img) (FileData.zipData (zEs net url)) ::
              entryOps ds (zEs net url)) ++ imgOpsF ds args net rest := by
          rw [imgOpsF, if_pos hei, hR, List.append_nil]
        have hRHS : (if args.extract_images then
              imgOpsE ds net ((img, url) :: rest) else []) =
            entryOps ds (zEs net url) ++ imgOpsE ds net rest := by
          rw [if_pos hei, imgOpsE]
        have hihE : lastOp (imgOpsF ds args net rest) p =
            lastOp (imgOpsE ds net rest) p := by
          rw [ih hni', if_pos hei]
        rw [hL, hRHS]
        cases hr : lastOp (imgOpsE ds net rest) p with
        | some r =>
            rw [lastOp_append_some _ _ _ _ (hihE.trans hr),
              lastOp_append_some _ _ _ _ hr]
        | none =>
            rw [lastOp_append_none _ _ _ (hihE.trans hr),
              lastOp_append_none _ _ _ hr,
              lastOp_cons_put_ne _ _ _ _ hne]
      · have h0 : lastOp (imgOpsF ds args net rest) p = none := by
          rw [ih hni', if_neg hei]
          rfl
        have hL : imgOpsF ds args net ((img, url) :: rest) =
            (WOp.put (pjoin ds img) (FileData.zipData (zEs net url)) :: []) ++
              imgOpsF ds args net rest := by
          rw [imgOpsF, if_neg hei]
        rw [hL, lastOp_append_none _ _ _ h0, lastOp_cons_put_ne _ _ _ _ hne,
          if_neg hei]

/-- Outside the archive download paths, a fresh run and a
downloads-skipped run perform the same last write on every path. -/
theorem lastOp_full_eq_extract (bop : Bop) (args : Args) (net : Net)
    (hrm : args.remove_zip = false) (p : String)
    (hp : p ∉ archPaths bop args) :
    lastOp (fullOps bop args net) p = lastOp (extractOps bop args net) p := by
  have hbp : pjoin args.save_dir bop.base ≠ p :=
    fun h => hp (h ▸ bp_mem_arch bop args)
  have hmp : pjoin args.save_dir bop.model ≠ p :=
    fun h => hp (h ▸ mp_mem_arch bop args)
  have himg : p ∉ (imgPairs bop).map
      (fun q => pjoin (pjoin args.save_dir bop.dataset_name) q.1) := by
    intro hm
    obtain ⟨q, hq, hqe⟩ := List.mem_map.mp hm
    exact hp (hqe ▸ img_mem_arch bop args q hq)
  have hfo : fullOps bop args net =
      (WOp.put (pjoin args.save_dir bop.base)
          (FileData.zipData (zEs net bop.base_url)) ::
        entryOps args.save_dir (zEs net bop.base_url)) ++
      (WOp.put (pjoin args.save_dir bop.model)
          (FileData.zipData (zEs net bop.model_url)) ::
        entryOps (pjoin args.save_dir bop.dataset_name)
          (zEs net bop.model_url)) ++
      (if args.download_images then
        imgOpsF (pjoin args.save_dir bop.dataset_name) args net (imgPairs bop)
      else []) := by
    simp [fullOps, basePath, modelPath, dsDir, remOp, hrm]
  have hxo : extractOps bop args net =
      entryOps args.save_dir (zEs net bop.base_url) ++
      entryOps (pjoin args.save_dir bop.dataset_name)
        (zEs net bop.model_url) ++
      (if args.download_images && args.extract_images then
        imgOpsE (pjoin args.save_dir bop.dataset_name) net (imgPairs bop)
      else []) := by
    simp [extractOps, dsDir]
  have hIF : lastOp
      (if args.download_images then
        imgOpsF (pjoin args.save_dir bop.dataset_name) args net (imgPairs bop)
      else []) p =
      lastOp
      (if args.download_images && args.extract_images then
        imgOpsE (pjoin args.save_dir bop.dataset_name) net (imgPairs bop)
      else []) p := by
    by_cases hdi : args.download_images
    · rw [if_pos hdi,
        lastOp_imgOpsF_eq_imgOpsE _ args net (imgPairs bop) p hrm himg]
      by_cases hei : args.extract_images
      · rw [if_pos hei, if_pos (by simp [hdi, hei])]
      · rw [if_neg hei, if_neg (by rw [bool_eq_false hei]; simp)]
    · rw [if_neg hdi, if_neg (by rw [bool_eq_false hdi]; simp)]
  rw [hfo, hxo]
  cases hCE : lastOp
      (if args.download_images && args.extract_images then
        imgOpsE (pjoin args.save_dir bop.dataset_name) net (imgPairs bop)
      else []) p with
  | some r =>
      rw [lastOp_append_some _ _ _ _ (hIF.trans hCE),
        lastOp_append_some _ _ _ _ hCE]
  | none =>
      rw [lastOp_append_none _ _ _ (hIF.trans hCE),
        lastOp_append_none _ _ _ hCE]
      cases hEm : lastOp (entryOps (pjoin args.save_dir bop.dataset_name)
          (zEs net bop.model_url)) p with
      | some r =>
          rw [lastOp_append_some _ _ _ _
              (by rw [lastOp_cons_put_ne _ _ _ _ hmp]; exact hEm),
            lastOp_append_some _ _ _ _ hEm]
      | none =>
          rw [lastOp_append_none _ _ _
              (by rw [lastOp_cons_put_ne _ _ _ _ hmp]; exact hEm),
            lastOp_append_none _ _ _ hEm,
            lastOp_cons_put_ne _ _ _ _ hbp]

theorem extractOps_path_sub (bop : Bop) (args : Args) (net : Net) :
    ∀ x ∈ (extractOps bop args net).map opPath,
      x ∈ allEntryPaths bop args net := by
  intro x hx
  rw [extractOps, List.map_append, List.map_append] at hx
  rcases List.mem_append.mp hx with h1 | h2
  · rcases List.mem_append.mp h1 with hA | hB
    · exact entryB_sub bop args net x hA
    · exact entryM_sub bop args net x hB
  · by_cases hde : args.download_images && args.extract_images
    · rw [if_pos hde] at h2
      obtain ⟨q, hq, hqx⟩ :=
        imgEntryPaths_mem _ _ _ _ (imgOpsE_path_mem _ _ _ _ h2)
      exact entryI_sub bop args net q hq x hqx
    · rw [if_neg hde] at h2
      simp at h2

/-- The `except error.HTTPError` wrapper is invisible on a body that
returns normally. -/
theorem download_all_eq_of_ok (bop : Bop) (args : Args) (net : Net)
    (s t : St) (h : jobBody bop args net s = (t, none)) :
    download_all bop args net s = (t, none) := by
  rw [download_all, h]

/-- One scheduled task (`executor.submit(download_all, bop, args, sem)`)
started on a given filesystem, with nothing yet requested or printed. -/
def runJob (bop : Bop) (args : Args) (net : Net) (fs : FS) :
    St × Option PyErr :=
  download_all bop args net { fs := fs, reqs := [], trace := [], out := [] }

/-! ## Concrete fixtures used by witnesses and counterexamples -/

def st0 : St := { fs := [], reqs := [], trace := [], out := [] }

def bopEx : Bop :=
  { dataset_name := "lm", base := "lm_base.zip",
    base_url := "http://h/lm_base.zip",
    model := "lm_models.zip", model_url := "http://h/lm_models.zip",
    images := ["lm_test.zip"], image_urls := ["http://h/lm_test.zip"] }

def bopB : Bop :=
  { dataset_name := "tless", base := "tless_base.zip",
    base_url := "http://h/tless_base.zip",
    model := "tless_models.zip", model_url := "http://h/tless_models.zip",
    images := [], image_urls := [] }

def argsEx : Args :=
  { save_dir := "out", whitelist := none, remove_zip := false,
    download_images := false, extract_images := false, num_thread := 8 }

def argsImg : Args :=
  { save_dir := "out", whitelist := none, remove_zip := false,
    download_images := true, extract_images := true, num_thread := 8 }

def argsRm : Args :=
  { save_dir := "out", whitelist := none, remove_zip := true,
    download_images := false, extract_images := false, num_thread := 8 }

/-- A network where every connection fails before any byte. -/
def netDown : Net := fun _ => NetOutcome.urlError

/-- A network where every request gets an HTTP error status. -/
def netHTTP : Net := fun _ => NetOutcome.httpError

/-- A network where every transfer dies mid-body. -/
def netMid : Net := fun _ => NetOutcome.midFail "PART"

/-- A network serving, for every URL, a zip with one intact member
whose name is derived from the URL (so member paths never collide with
archive paths). -/
def netAll : Net := fun u =>
  NetOutcome.ok (FileData.zipData [(lastSeg u ++ ".d", "DATA", true)])

def stEx : St :=
  { fs := [("out/f.zip", FileData.raw "X")], reqs := [], trace := [], out := [] }

def stZip : St :=
  { fs := [("out/z.zip", FileData.zipData
      [("g1.txt", "A", true), ("bad.bin", "", false), ("g2.txt", "B", true)])],
    reqs := [], trace := [], out := [] }

/-! ## Claim theorems -/

theorem runningCount_append (l r : Pool) :
    runningCount (l ++ r) = runningCount l + runningCount r := by
  induction l with
  | nil => simp [runningCount]
  | cons j js ih =>
      cases j with
      | pending =>
          show runningCount (JobPhase.pending :: (js ++ r)) = _
          simp [runningCount, ih]
      | running =>
          show runningCount (JobPhase.running :: (js ++ r)) = _
          simp [runningCount, ih]
          omega
      | done =>
          show runningCount (JobPhase.done :: (js ++ r)) = _
          simp [runningCount, ih]

theorem sched_step_bound (m : Nat) (a b : Pool) (ha : runningCount a ≤ m)
    (hstep : SchedStep m a b) : runningCount b ≤ m := by
  cases hstep with
  | acquire l r h =>
      rw [runningCount_append] at h ⊢
      simp only [runningCount] at h ⊢
      omega
  | release l r =>
      rw [runningCount_append] at ha ⊢
      simp only [runningCount] at ha ⊢
      omega

/-- C1: in every state the scheduler can reach from all jobs pending,
at most `maxJobs` job bodies hold the counting semaphore — i.e. execute
their download/extract bodies — simultaneously.  The model's `acquire`
transition is the `with sem:` entry that every `download_all` body
performs before its first fetch, and `release` is the job reaching a
terminal state. -/
theorem scheduler_concurrency_bound (maxJobs n : Nat) (js : Pool)
    (h : Relation.ReflTransGen (SchedStep maxJobs)
      (List.replicate n JobPhase.pending) js) :
    runningCount js ≤ maxJobs := by
  induction h with
  | refl =>
      have h0 : ∀ k, runningCount (List.replicate k JobPhase.pending) = 0 := by
        intro k
        induction k with
        | zero => rfl
        | succ k ih => simp [List.replicate, runningCount, ih]
      rw [h0 n]
      exact Nat.zero_le _
  | tail hab hbc ih => exact sched_step_bound _ _ _ ih hbc

theorem scheduler_concurrency_bound_witness :
    runningCount [JobPhase.running, JobPhase.pending, JobPhase.pending] ≤ 2 :=
  scheduler_concurrency_bound 2 3
    [JobPhase.running, JobPhase.pending, JobPhase.pending]
    (Relation.ReflTransGen.single
      (show SchedStep 2 (List.replicate 3 JobPhase.pending)
          [JobPhase.running, JobPhase.pending, JobPhase.pending] from
        SchedStep.acquire [] [JobPhase.pending, JobPhase.pending] (by decide)))

/-- C2 counterexample: with every connection failing before any byte
(`urllib.error.URLError`, a transport-level failure that is not an
`HTTPError`), the exception escapes `download_all` — the job does not
return normally and prints no failure report. -/
theorem job_boundary_counterexample :
    (download_all bopEx argsEx netDown st0).2 = some PyErr.urlError ∧
    (download_all bopEx argsEx netDown st0).1.out = [] := by decide

/-- C2 (amended): an `HTTPError` raised anywhere in the job body is
caught at the job boundary, reported as `Download Failed: <base archive
name>`, and the job returns normally with the state the body reached. -/
theorem job_boundary_http_caught (bop : Bop) (args : Args) (net : Net)
    (s : St) (h : (jobBody bop args net s).2 = some PyErr.httpError) :
    (download_all bop args net s).2 = none ∧
    (download_all bop args net s).1.out =
      (jobBody bop args net s).1.out ++ ["Download Failed: " ++ bop.base] ∧
    (download_all bop args net s).1.fs = (jobBody bop args net s).1.fs ∧
    (download_all bop args net s).1.reqs = (jobBody bop args net s).1.reqs := by
  rcases hjb : jobBody bop args net s with ⟨t, e⟩
  rw [hjb] at h
  simp only at h
  subst h
  rw [download_all, hjb]
  simp

theorem job_boundary_http_caught_witness :
    (download_all bopEx argsEx netHTTP st0).2 = none ∧
    (download_all bopEx argsEx netHTTP st0).1.out =
      (jobBody bopEx argsEx netHTTP st0).1.out ++
        ["Download Failed: " ++ bopEx.base] ∧
    (download_all bopEx argsEx netHTTP st0).1.fs =
      (jobBody bopEx argsEx netHTTP st0).1.fs ∧
    (download_all bopEx argsEx netHTTP st0).1.reqs =
      (jobBody bopEx argsEx netHTTP st0).1.reqs :=
  job_boundary_http_caught bopEx argsEx netHTTP st0 (by decide)

/-- C3: the fetch destination is `save_dir/<final URL path segment>`,
and when a file already exists there the fetch returns at once: the
filesystem is untouched, no network request happens, and nothing is
raised. -/
theorem fetch_skip_if_exists (url save_dir : String) (net : Net) (s : St)
    (h : fsExists s.fs (pjoin save_dir (lastSeg url)) = true) :
    (download_file url save_dir net s).1.fs = s.fs ∧
    (download_file url save_dir net s).1.reqs = s.reqs ∧
    (download_file url save_dir net s).2 = none := by
  simp [download_file, h]

theorem fetch_skip_if_exists_witness :
    (download_file "http://h/f.zip" "out" netDown stEx).1.fs = stEx.fs ∧
    (download_file "http://h/f.zip" "out" netDown stEx).1.reqs = stEx.reqs ∧
    (download_file "http://h/f.zip" "out" netDown stEx).2 = none :=
  fetch_skip_if_exists "http://h/f.zip" "out" netDown stEx (by decide)

/-- C5 counterexample: a transfer that fails mid-body leaves the bytes
received so far at the final destination path (no temp-file rename, no
cleanup), while the fetch raises. -/
theorem failed_transfer_leaves_file :
    (download_file "http://h/f.zip" "out" netMid st0).2
      = some PyErr.urlError ∧
    fsGet (download_file "http://h/f.zip" "out" netMid st0).1.fs "out/f.zip"
      = some (FileData.raw "PART") := by decide

/-- C5 (amended): a mid-transfer failure writes the partial body to the
final destination path and raises a `URLError`; a retry of the same
fetch then finds the file, treats it as a completed download, and skips
without any network request. -/
theorem failed_transfer_behavior (url save_dir : String) (net : Net)
    (s : St) (d : String) (hmid : net url = NetOutcome.midFail d)
    (hne : fsExists s.fs (pjoin save_dir (lastSeg url)) = false) :
    (download_file url save_dir net s).2 = some PyErr.urlError ∧
    fsGet (download_file url save_dir net s).1.fs
      (pjoin save_dir (lastSeg url)) = some (FileData.raw d) ∧
    (download_file url save_dir net (download_file url save_dir net s).1).2
      = none ∧
    (download_file url save_dir net
        (download_file url save_dir net s).1).1.reqs
      = (download_file url save_dir net s).1.reqs := by
  have h1 : download_file url save_dir net s =
      ({ s with
          fs := fsWrite s.fs (pjoin save_dir (lastSeg url)) (FileData.raw d),
          reqs := s.reqs ++ [url],
          trace := s.trace ++ [Ev.fetch url save_dir] },
        some PyErr.urlError) := by
    simp [download_file, hne, hmid]
  have h2 := download_file_skip url save_dir net
    ({ s with
        fs := fsWrite s.fs (pjoin save_dir (lastSeg url)) (FileData.raw d),
        reqs := s.reqs ++ [url],
        trace := s.trace ++ [Ev.fetch url save_dir] })
    (by simp [fsExists, fsGet_fsWrite])
  simp only [h1, h2]
  simp [fsGet_fsWrite]

theorem failed_transfer_behavior_witness :
    (download_file "http://h/f.zip" "out" netMid st0).2
      = some PyErr.urlError ∧
    fsGet (download_file "http://h/f.zip" "out" netMid st0).1.fs
      (pjoin "out" (lastSeg "http://h/f.zip")) = some (FileData.raw "PART") ∧
    (download_file "http://h/f.zip" "out" netMid
      (download_file "http://h/f.zip" "out" netMid st0).1).2 = none ∧
    (download_file "http://h/f.zip" "out" netMid
        (download_file "http://h/f.zip" "out" netMid st0).1).1.reqs
      = (download_file "http://h/f.zip" "out" netMid st0).1.reqs :=
  failed_transfer_behavior "http://h/f.zip" "out" netMid st0 "PART"
    (by decide) (by decide)

theorem entryOps_eq_filter (dst : String) (es : List ZEntry) :
    entryOps dst es = (es.filter (fun e => e.2.2)).map
      (fun e => WOp.put (pjoin dst e.1) (FileData.raw e.2.1)) := by
  induction es with
  | nil => rfl
  | cons e rest ih =>
      simp only [entryOps] at ih ⊢
      by_cases hg : e.2.2 <;>
        simp [List.filterMap_cons, List.filter_cons, hg, ih]

/-- C6: extracting an archive that is on disk never fails, whatever
corrupt members it holds: the writes performed are exactly those of the
intact members, in container order (corrupt members are skipped), and
the call returns normally. -/
theorem extract_skips_bad_entries (filename dst : String) (args : Args)
    (s : St) (es : List ZEntry)
    (h : fsGet s.fs filename = some (FileData.zipData es)) :
    (extract_and_remove filename dst args s).2 = none ∧
    (extract_and_remove filename dst args s).1.fs =
      applyOps (entryOps dst es ++ remOp args filename) s.fs ∧
    entryOps dst es = (es.filter (fun e => e.2.2)).map
      (fun e => WOp.put (pjoin dst e.1) (FileData.raw e.2.1)) := by
  rw [extract_and_remove_ok filename dst args s es h]
  exact ⟨rfl, rfl, entryOps_eq_filter dst es⟩

theorem extract_skips_bad_entries_witness :
    (extract_and_remove "out/z.zip" "out" argsEx stZip).2 = none ∧
    (extract_and_remove "out/z.zip" "out" argsEx stZip).1.fs =
      applyOps (entryOps "out"
        [("g1.txt", "A", true), ("bad.bin", "", false), ("g2.txt", "B", true)]
        ++ remOp argsEx "out/z.zip") stZip.fs ∧
    entryOps "out"
        [("g1.txt", "A", true), ("bad.bin", "", false), ("g2.txt", "B", true)]
      = ([("g1.txt", "A", true), ("bad.bin", "", false),
          ("g2.txt", "B", true)].filter (fun e => e.2.2)).map
        (fun e => WOp.put (pjoin "out" e.1) (FileData.raw e.2.1)) :=
  extract_skips_bad_entries "out/z.zip" "out" argsEx stZip
    [("g1.txt", "A", true), ("bad.bin", "", false), ("g2.txt", "B", true)]
    (by decide)

/-- C8: with a (non-empty, as `argparse` guarantees) whitelist present,
exactly the descriptors whose dataset name is in it get a job; with the
whitelist absent, every descriptor gets a job. -/
theorem whitelist_filter (wl : List String) (bops : List Bop)
    (hne : wl ≠ []) (b : Bop) :
    (b ∈ applyWhitelist (some wl) bops ↔
      b ∈ bops ∧ b.dataset_name ∈ wl) ∧
    applyWhitelist none bops = bops := by
  constructor
  · cases wl with
    | nil => exact absurd rfl hne
    | cons w ws =>
        simp [applyWhitelist, List.mem_filter]
  · rfl

theorem whitelist_filter_witness :
    (bopB ∈ applyWhitelist (some ["tless"]) [bopEx, bopB] ↔
      bopB ∈ [bopEx, bopB] ∧ bopB.dataset_name ∈ ["tless"]) ∧
    applyWhitelist none [bopEx, bopB] = [bopEx, bopB] :=
  whitelist_filter ["tless"] [bopEx, bopB] (by decide) bopB

/-- A zip archive at `out/z.zip` containing an intact member named
`z.zip`: extracting into `out` writes that member over the archive's
own download path. -/
def stSelf : St :=
  { fs := [("out/z.zip", FileData.zipData [("z.zip", "OVERWRITTEN", true)])],
    reqs := [], trace := [], out := [] }

/-- C9 counterexample: an archive whose member extracts to the
archive's own path is overwritten during the extraction pass, so with
`remove_zip` off it does not persist unchanged at its download path —
the claim's universal "persists unchanged" fails. -/
theorem archive_removal_counterexample :
    argsEx.remove_zip = false ∧
    (extract_and_remove "out/z.zip" "out" argsEx stSelf).2 = none ∧
    fsGet (extract_and_remove "out/z.zip" "out" argsEx stSelf).1.fs
      "out/z.zip" = some (FileData.raw "OVERWRITTEN") ∧
    some (FileData.raw "OVERWRITTEN")
      ≠ some (FileData.zipData [("z.zip", "OVERWRITTEN", true)]) := by decide

/-- C9 (amended): the archive file is gone from its download path
after the extraction pass exactly when `remove_zip` is set — regardless
of per-member skips — and persists unchanged when `remove_zip` is off,
provided no extracted member's destination path is the archive's own
path (otherwise that member overwrites the archive during the pass). -/
theorem archive_removal (filename dst : String) (args : Args) (s : St)
    (es : List ZEntry)
    (h : fsGet s.fs filename = some (FileData.zipData es))
    (hnc : filename ∉ (entryOps dst es).map opPath) :
    fsExists (extract_and_remove filename dst args s).1.fs filename
      = !args.remove_zip ∧
    (args.remove_zip = false →
      fsGet (extract_and_remove filename dst args s).1.fs filename
        = some (FileData.zipData es)) := by
  rw [extract_and_remove_ok filename dst args s es h]
  have hE : lastOp (entryOps dst es) filename = none := lastOp_eq_none _ _ hnc
  constructor
  · show fsExists (applyOps (entryOps dst es ++ remOp args filename) s.fs)
      filename = !args.remove_zip
    by_cases hr : args.remove_zip
    · have hrem : remOp args filename = [WOp.del filename] := by
        simp [remOp, hr]
      rw [fsExists, fsGet_applyOps, hrem,
        lastOp_append_some _ _ _ none (by simp [lastOp, opPath, opVal])]
      simp [hr]
    · have hrem : remOp args filename = [] := by
        simp [remOp, hr]
      rw [fsExists, fsGet_applyOps, hrem, List.append_nil, hE]
      simp [h, bool_eq_false hr]
  · intro hr
    have hrem : remOp args filename = [] := by
      simp [remOp, hr]
    show fsGet (applyOps (entryOps dst es ++ remOp args filename) s.fs)
      filename = some (FileData.zipData es)
    rw [fsGet_applyOps, hrem, List.append_nil, hE]
    exact h

theorem archive_removal_witness :
    fsExists (extract_and_remove "out/z.zip" "out" argsEx stZip).1.fs
      "out/z.zip" = !argsEx.remove_zip ∧
    (argsEx.remove_zip = false →
      fsGet (extract_and_remove "out/z.zip" "out" argsEx stZip).1.fs
        "out/z.zip" = some (FileData.zipData
          [("g1.txt", "A", true), ("bad.bin", "", false),
           ("g2.txt", "B", true)])) :=
  archive_removal "out/z.zip" "out" argsEx stZip
    [("g1.txt", "A", true), ("bad.bin", "", false), ("g2.txt", "B", true)]
    (by decide) (by decide)

/-- C4 counterexample: with `remove_zip` on, the archives are deleted
after extraction, so a second identical run re-downloads them — it
performs network requests instead of zero. -/
theorem pipeline_idempotent_counterexample :
    (runJob bopEx argsRm netAll
        (runJob bopEx argsRm netAll []).1.fs).1.reqs
      = ["http://h/lm_base.zip", "http://h/lm_models.zip"] ∧
    ["http://h/lm_base.zip", "http://h/lm_models.zip"] ≠ ([] : List String)
    := by decide

/-- C4 (amended): for a well-formed dataset (URL basenames match the
recorded archive names, the network serves zips, and no extracted
member lands on an archive path) and a config with `remove_zip` off,
both runs succeed, the second run performs zero network requests, and
the filesystem after the second run equals the one after the first. -/
theorem pipeline_idempotent_no_remove (bop : Bop) (args : Args) (net : Net)
    (hN : NamesOK bop) (hE : NetOK bop net) (hS : SepOK bop args net)
    (hrm : args.remove_zip = false) :
    (runJob bop args net []).2 = none ∧
    (runJob bop args net (runJob bop args net []).1.fs).2 = none ∧
    (runJob bop args net (runJob bop args net []).1.fs).1.reqs = [] ∧
    fsEquiv (runJob bop args net (runJob bop args net []).1.fs).1.fs
      (runJob bop args net []).1.fs := by
  have h1 := jobBody_fresh bop args net
    { fs := [], reqs := [], trace := [], out := [] } hN hE hS
    (fun p _ => rfl)
  have hr1 : runJob bop args net [] =
      ({ fs := applyOps (fullOps bop args net) [],
         reqs := [] ++ jobReqs bop args,
         trace := [] ++ jobTrace bop args,
         out := [] }, none) :=
    download_all_eq_of_ok bop args net _ _ h1
  have hsat : Saturated bop args net (applyOps (fullOps bop args net) []) :=
    saturated_fullOps bop args net [] hS hrm
  have h2 := jobBody_saturated bop args net
    { fs := applyOps (fullOps bop args net) [], reqs := [], trace := [],
      out := [] } hN hS hrm hsat
  have hr2 : runJob bop args net (applyOps (fullOps bop args net) []) =
      ({ fs := applyOps (extractOps bop args net)
           (applyOps (fullOps bop args net) []),
         reqs := [],
         trace := [] ++ jobTrace bop args,
         out := [] }, none) :=
    download_all_eq_of_ok bop args net _ _ h2
  have hfs1 : (runJob bop args net []).1.fs
      = applyOps (fullOps bop args net) [] := by
    rw [hr1]
  have hfs2 : (runJob bop args net (runJob bop args net []).1.fs).1.fs
      = applyOps (extractOps bop args net)
          (applyOps (fullOps bop args net) []) := by
    rw [hfs1, hr2]
  refine ⟨by simp [hr1], by simp [hfs1, hr2], by simp [hfs1, hr2], ?_⟩
  rw [hfs2, hfs1]
  intro p
  rw [fsGet_applyOps]
  cases he : lastOp (extractOps bop args net) p with
  | none => rfl
  | some r =>
      have hmem : p ∈ (extractOps bop args net).map opPath :=
        mem_of_lastOp_isSome _ _ (by simp [he])
      have hnarch : p ∉ archPaths bop args :=
        hS.2 p (extractOps_path_sub bop args net p hmem)
      rw [fsGet_applyOps, lastOp_full_eq_extract bop args net hrm p hnarch, he]
      rfl

theorem pipeline_idempotent_no_remove_witness :
    (runJob bopEx argsImg netAll []).2 = none ∧
    (runJob bopEx argsImg netAll (runJob bopEx argsImg netAll []).1.fs).2
      = none ∧
    (runJob bopEx argsImg netAll
      (runJob bopEx argsImg netAll []).1.fs).1.reqs = [] ∧
    fsEquiv (runJob bopEx argsImg netAll
        (runJob bopEx argsImg netAll []).1.fs).1.fs
      (runJob bopEx argsImg netAll []).1.fs :=
  pipeline_idempotent_no_remove bopEx argsImg netAll
    (by refine ⟨?_, ?_, ?_⟩ <;> decide)
    (by refine ⟨?_, ?_, ?_⟩ <;> decide)
    (by refine ⟨?_, ?_⟩ <;> decide)
    rfl

/-- C7: a job on a fresh directory executes its steps in exactly the
fixed order: fetch base into `save_dir`, extract it flat into
`save_dir`, fetch model into `save_dir`, extract it into
`save_dir/<dataset_name>`, and then — only under `download_images` —
each image pair in descriptor order, fetched into
`save_dir/<dataset_name>` and, if also `extract_images`, extracted into
that same directory. -/
theorem job_step_order (bop : Bop) (args : Args) (net : Net)
    (hN : NamesOK bop) (hE : NetOK bop net) (hS : SepOK bop args net) :
    (runJob bop args net []).2 = none ∧
    (runJob bop args net []).1.trace =
      [Ev.fetch bop.base_url args.save_dir,
       Ev.extractStep (pjoin args.save_dir bop.base) args.save_dir,
       Ev.fetch bop.model_url args.save_dir,
       Ev.extractStep (pjoin args.save_dir bop.model)
         (pjoin args.save_dir bop.dataset_name)] ++
      (if args.download_images then
        imgTraceF (pjoin args.save_dir bop.dataset_name)
          args.extract_images (bop.images.zip bop.image_urls)
      else []) := by
  have h1 := jobBody_fresh bop args net
    { fs := [], reqs := [], trace := [], out := [] } hN hE hS
    (fun p _ => rfl)
  have hr1 : runJob bop args net [] =
      ({ fs := applyOps (fullOps bop args net) [],
         reqs := [] ++ jobReqs bop args,
         trace := [] ++ jobTrace bop args,
         out := [] }, none) :=
    download_all_eq_of_ok bop args net _ _ h1
  refine ⟨by simp [hr1], ?_⟩
  rw [hr1]
  simp [jobTrace, basePath, modelPath, dsDir, imgPairs]

theorem job_step_order_witness :
    (runJob bopEx argsImg netAll []).2 = none ∧
    (runJob bopEx argsImg netAll []).1.trace =
      [Ev.fetch bopEx.base_url argsImg.save_dir,
       Ev.extractStep (pjoin argsImg.save_dir bopEx.base) argsImg.save_dir,
       Ev.fetch bopEx.model_url argsImg.save_dir,
       Ev.extractStep (pjoin argsImg.save_dir bopEx.model)
         (pjoin argsImg.save_dir bopEx.dataset_name)] ++
      (if argsImg.download_images then
        imgTraceF (pjoin argsImg.save_dir bopEx.dataset_name)
          argsImg.extract_images (bopEx.images.zip bopEx.image_urls)
      else []) :=
  job_step_order bopEx argsImg netAll
    (by refine ⟨?_, ?_, ?_⟩ <;> decide)
    (by refine ⟨?_, ?_, ?_⟩ <;> decide)
    (by refine ⟨?_, ?_⟩ <;> decide)

theorem zip_get_eq (as bs : List String) (i : Nat) :
    (as.zip bs).get? i =
      match as.get? i, bs.get? i with
      | some a, some b => some (a, b)
      | _, _ => none := by
  induction as generalizing bs i with
  | nil => cases bs <;> cases i <;> rfl
  | cons a as ih =>
      cases bs with
      | nil =>
          cases i with
          | zero => rfl
          | succ n =>
              cases hn : as.get? n <;>
                simp [List.zip_nil_right, List.get?_cons_succ, hn]
      | cons b bs =>
          cases i with
          | zero => rfl
          | succ n => exact ih bs n

/-- C10: a descriptor with image-name and image-URL lists of unequal
lengths raises nothing; the job processes exactly the positional pairs
of the zipped lists — `min` of the two lengths many, in order — and
silently ignores the surplus of the longer list. -/
theorem image_pairs_truncated (bop : Bop) (args : Args) (net : Net)
    (hN : NamesOK bop) (hE : NetOK bop net) (hS : SepOK bop args net)
    (hdi : args.download_images = true)
    (hlen : bop.images.length ≠ bop.image_urls.length) :
    (runJob bop args net []).2 = none ∧
    (runJob bop args net []).1.reqs =
      bop.base_url :: bop.model_url ::
        (bop.images.zip bop.image_urls).map Prod.snd ∧
    (bop.images.zip bop.image_urls).length =
      min bop.images.length bop.image_urls.length ∧
    (∀ i : Nat, (bop.images.zip bop.image_urls).get? i =
      match bop.images.get? i, bop.image_urls.get? i with
      | some a, some b => some (a, b)
      | _, _ => none) := by
  have h1 := jobBody_fresh bop args net
    { fs := [], reqs := [], trace := [], out := [] } hN hE hS
    (fun p _ => rfl)
  have hr1 : runJob bop args net [] =
      ({ fs := applyOps (fullOps bop args net) [],
         reqs := [] ++ jobReqs bop args,
         trace := [] ++ jobTrace bop args,
         out := [] }, none) :=
    download_all_eq_of_ok bop args net _ _ h1
  refine ⟨by simp [hr1], ?_, List.length_zip _ _, fun i => zip_get_eq _ _ i⟩
  rw [hr1]
  simp [jobReqs, hdi, imgPairs]

def bopUneven : Bop :=
  { dataset_name := "lm", base := "lm_base.zip",
    base_url := "http://h/lm_base.zip",
    model := "lm_models.zip", model_url := "http://h/lm_models.zip",
    images := ["lm_a.zip", "lm_b.zip", "lm_c.zip"],
    image_urls := ["http://h/lm_a.zip"] }

theorem image_pairs_truncated_witness :
    (runJob bopUneven argsImg netAll []).2 = none ∧
    (runJob bopUneven argsImg netAll []).1.reqs =
      bopUneven.base_url :: bopUneven.model_url ::
        (bopUneven.images.zip bopUneven.image_urls).map Prod.snd ∧
    (bopUneven.images.zip bopUneven.image_urls).length =
      min bopUneven.images.length bopUneven.image_urls.length ∧
    (∀ i : Nat, (bopUneven.images.zip bopUneven.image_urls).get? i =
      match bopUneven.images.get? i, bopUneven.image_urls.get? i with
      | some a, some b => some (a, b)
      | _, _ => none) :=
  image_pairs_truncated bopUneven argsImg netAll
    (by refine ⟨?_, ?_, ?_⟩ <;> decide)
    (by refine ⟨?_, ?_, ?_⟩ <;> decide)
    (by refine ⟨?_, ?_⟩ <;> decide)
    rfl (by decide)

end BopDL
